import Mathlib

/-!
Shallow embedding of `src/say_anything.py` (the `Game` class): a per-channel
party-game session with a roster, round-robin question setters, answer
collection, a private selection protocol, and anonymous reaction voting.

Participants are modelled by opaque identities (`Player := Nat`); Discord
message identities by `MsgId := Nat`.  Python `dict`s are modelled as
insertion-ordered association lists.  Python exceptions (`IndexError` from
list indexing, `StopIteration` from `next` without a default, `KeyError`
from `dict[...]`) are modelled by returning the partially mutated state
together with an error marker, matching CPython semantics where mutations
before the raise persist on the object.
-/

namespace SayAnything

abbrev Player := Nat
abbrev MsgId := Nat

/-- A Python `dict`, modelled as an insertion-ordered association list with
unique keys maintained by `dictInsert`. -/
abbrev PyDict (α β : Type) := List (α × β)

/-- `d[k] = v`: update in place if `k` is present, else append (Python dicts
keep insertion order). -/
def dictInsert [DecidableEq α] (k : α) (v : β) : PyDict α β → PyDict α β
  | [] => [(k, v)]
  | (k', v') :: rest =>
      if k' = k then (k, v) :: rest else (k', v') :: dictInsert k v rest

/-- `d.get(k)` (first binding wins, matching unique-key dicts). -/
def dictLookup [DecidableEq α] (k : α) : PyDict α β → Option β
  | [] => none
  | (k', v') :: rest => if k' = k then some v' else dictLookup k rest

/-- `k in d`. -/
def dictContains [DecidableEq α] (k : α) (d : PyDict α β) : Bool :=
  d.any (fun kv => kv.1 = k)

/-- Python list indexing `l[i]` for `int` indices: negative indices count
from the end; out of range gives `none` (an `IndexError` at the call site). -/
def pyGet (l : List α) (i : Int) : Option α :=
  let j := if i < 0 then (l.length : Int) + i else i
  if j < 0 then none else l.get? j.toNat

/-- Python truthiness of an `Optional[str]`: `None` and `""` are falsy. -/
def pyTruthyStr : Option String → Bool
  | none => false
  | some s => s ≠ ""

/-- Python truthiness of an `Optional[list]`: `None` and `[]` are falsy. -/
def pyTruthyList : Option (List α) → Bool
  | none => false
  | some l => !l.isEmpty

/-- Python `str.isnumeric()` restricted to ASCII digits (the only case the
source feeds to `int(...)`). -/
def pyIsNumeric (s : String) : Bool :=
  !s.isEmpty && s.data.all Char.isDigit

/-- Python `str.strip()`: drop whitespace from both ends (implemented over
the character list so that it evaluates inside the kernel). -/
def pyStrip (s : String) : String :=
  ⟨((s.data.dropWhile Char.isWhitespace).reverse.dropWhile
      Char.isWhitespace).reverse⟩

/-- Python `str.startswith(pre)`. -/
def pyStartsWith (s pre : String) : Bool :=
  pre.data.isPrefixOf s.data

/-- Python `s[n:]` on strings (drop the first `n` characters). -/
def pyDrop (s : String) (n : Nat) : String :=
  ⟨s.data.drop n⟩

/-- Python `int(s)` for a numeric string. -/
def pyToNat (s : String) : Nat :=
  s.data.foldl (fun n c => 10 * n + (c.toNat - 48)) 0

/-- One outcome of `random.shuffle`, driven by a list of Fisher–Yates style
choices: each step removes the element at position `k % length` and emits it.
Every outcome is a permutation of the input (`applyShuffle_perm`). -/
def applyShuffleAux : Nat → List Nat → List α → List α
  | _, [], l => l
  | 0, _, l => l
  | fuel + 1, k :: σ, l =>
      let i := k % l.length
      match l.get? i with
      | none => l
      | some x => x :: applyShuffleAux fuel σ (l.take i ++ l.drop (i + 1))

def applyShuffle (σ : List Nat) (l : List α) : List α :=
  applyShuffleAux l.length σ l

/-- Python exceptions that the source can raise while handling an event. -/
inductive PyErr
  | indexError
  | stopIteration
  | keyError
deriving DecidableEq

/-- The session state of `Game` in `src/say_anything.py`.  `next_msg_id` is
ghost state modelling the collaborator layer's allocation of fresh Discord
message ids for the vote prompts posted by `select_answer`. -/
structure Game where
  players : List Player
  scores : PyDict Player Int
  setter_index : Int := -1
  question_setter : Option Player := none
  question : Option String := none
  answers : PyDict Player String := []
  answer_selection_list : Option (List (Player × String)) := none
  correct_answer : Option Player := none
  vote_messages : PyDict MsgId Player := []
  votes : PyDict Player Int := []
  next_msg_id : Nat := 0
deriving DecidableEq

/-- `Game.__init__`. -/
def initGame : Game :=
  { players := [], scores := [] }

/-- `Game.start_round`.  On an empty roster the indexing
`self.players[self.setter_index]` raises `IndexError` after `setter_index`
has already been advanced; that partial mutation is kept. -/
def start_round (g : Game) : Game × Option PyErr :=
  match g.question_setter with
  | some _ => (g, none)
  | none =>
      let i0 := g.setter_index + 1
      let i := if (g.players.length : Int) ≤ i0 then 0 else i0
      match pyGet g.players i with
      | none => ({ g with setter_index := i }, some .indexError)
      | some p =>
          ({ g with
              setter_index := i,
              question_setter := some p,
              question := none,
              answers := [],
              correct_answer := none,
              answer_selection_list := none,
              vote_messages := [],
              votes := [] }, none)

/-- `Game.add_players`: append each not-yet-present player with score 0,
then auto-start a round when no setter is active and the roster has ≥ 2
members. -/
def add_players (ps : List Player) (g : Game) : Game × Option PyErr :=
  let pair := ps.foldl
    (fun (acc : List Player × PyDict Player Int) p =>
      if acc.1.contains p then acc
      else (acc.1 ++ [p], dictInsert p 0 acc.2))
    (g.players, g.scores)
  let g1 := { g with players := pair.1, scores := pair.2 }
  if g1.question_setter.isNone && decide (2 ≤ g1.players.length) then
    start_round g1
  else (g1, none)

/-- `Game.request_answer_selection`: build the setter's private selection
list as a shuffle of the current answers (`σ` is the shuffle outcome). -/
def request_answer_selection (σ : List Nat) (g : Game) : Game :=
  match g.question_setter with
  | none => g
  | some _ =>
      { g with answer_selection_list := some (applyShuffle σ g.answers) }

/-- The vote-prompt messages posted for the shuffled answers, with fresh
ids allocated from `nextId`. -/
def votePrompts (nextId : Nat) : List (Player × String) → PyDict MsgId Player
  | [] => []
  | (u, _) :: rest => (nextId, u) :: votePrompts (nextId + 1) rest

/-- `Game.select_answer`: bounds-checked pick from the selection list, then
post one vote prompt per answer in a second shuffled order (`σ`),
initialising each answerer's vote weight to 0. -/
def select_answer (σ : List Nat) (index : Int) (g : Game) : Game :=
  if index < 1 then g
  else
    let selection_list := g.answer_selection_list.getD []
    if (selection_list.length : Int) < index then g
    else
      match pyGet selection_list (index - 1) with
      | none => g
      | some pr =>
          let g1 := { g with
            correct_answer := some pr.1,
            answer_selection_list := none }
          let shuffled := applyShuffle σ g1.answers
          { g1 with
              votes := shuffled.foldl (fun d kv => dictInsert kv.1 0 d) g1.votes,
              vote_messages := g1.vote_messages ++ votePrompts g1.next_msg_id shuffled,
              next_msg_id := g1.next_msg_id + shuffled.length }

/-- `Game.handle_reaction`.  The `next(...)` over `vote_messages` has no
default: when no posted vote message matches the event's message id it
raises `StopIteration`.  The completion reveal indexes
`self.answers[self.correct_answer]`, a `KeyError` if absent. -/
def handle_reaction (member : Option Player) (emoji : String)
    (message_id : MsgId) (g : Game) : Game × Option PyErr :=
  match g.correct_answer with
  | none => (g, none)
  | some ca =>
      if emoji ≠ "1️⃣" && emoji ≠ "2️⃣" then (g, none)
      else
        match member with
        | none => (g, none)
        | some player =>
            if dictContains player g.votes = false then (g, none)
            else
              match g.vote_messages.find? (fun m => m.1 = message_id) with
              | none => (g, some .stopIteration)
              | some _ =>
                  let w : Int := if emoji = "2️⃣" then 2 else 1
                  let g1 := { g with
                    votes := dictInsert player
                      ((dictLookup player g.votes).getD 0 + w) g.votes }
                  if g1.votes.all (fun kv => 2 ≤ kv.2) = false then (g1, none)
                  else
                    match dictLookup ca g1.answers with
                    | none => (g1, some .keyError)
                    | some _ => ({ g1 with question_setter := none }, none)

/-- `Game.handle_channel_message`: `!nextround`, `!addplayers`, and the
setter's `!question` (ignored when a question is already set or the sender
is not the setter). -/
def handle_channel_message (author : Player) (content : String)
    (mentions : List Player) (g : Game) : Game × Option PyErr :=
  if pyStartsWith content "!nextround" then start_round g
  else if pyStartsWith content "!addplayers " then add_players mentions g
  else if pyStartsWith content "!question " then
    if pyTruthyStr g.question then (g, none)
    else if some author ≠ g.question_setter then (g, none)
    else ({ g with question := some (pyStrip (pyDrop content 10)) }, none)
  else (g, none)

/-- `Game.handle_player_message`: ignored without a question; the setter's
numeric messages drive selection while the pool is open; other players'
messages are recorded as answers unless judging has begun; when every
non-setter has answered, selection is requested (`σ` is the shuffle outcome
used by whichever branch shuffles). -/
def handle_player_message (σ : List Nat) (author : Player) (content : String)
    (g : Game) : Game :=
  if pyTruthyStr g.question = false then g
  else if some author = g.question_setter then
    if pyTruthyList g.answer_selection_list = false then g
    else if pyIsNumeric content then
      select_answer σ (pyToNat content : Int) g
    else g
  else if pyTruthyList g.answer_selection_list || g.correct_answer.isSome then g
  else
    let g1 := { g with answers := dictInsert author (pyStrip content) g.answers }
    if (g1.answers.length : Int) = (g1.players.length : Int) - 1 then
      request_answer_selection σ g1
    else g1

/-- The external events a session receives (the shuffle outcomes consumed
by an event are part of the event). -/
inductive Event
  | join (ps : List Player)
  | channelMsg (author : Player) (content : String) (mentions : List Player)
  | playerMsg (author : Player) (content : String) (σ : List Nat)
  | reaction (member : Option Player) (emoji : String) (message_id : MsgId)

/-- One event step.  On an exception the partially mutated state persists
(discord.py logs the exception and keeps dispatching to the same object). -/
def step (e : Event) (g : Game) : Game × Option PyErr :=
  match e with
  | .join ps => add_players ps g
  | .channelMsg a c m => handle_channel_message a c m g
  | .playerMsg a c σ => (handle_player_message σ a c g, none)
  | .reaction mem emoji mid => handle_reaction mem emoji mid g

/-- States reachable from a fresh session by any sequence of events. -/
inductive Reachable : Game → Prop
  | start : Reachable initGame
  | next (e : Event) {g : Game} : Reachable g → Reachable (step e g).1

/-! ### Basic lemmas about the dict model and the shuffle model -/

theorem any_eq_of_perm {α : Type} {l₁ l₂ : List α} (h : List.Perm l₁ l₂)
    (p : α → Bool) : l₁.any p = l₂.any p := by
  rw [Bool.eq_iff_iff, List.any_eq_true, List.any_eq_true]
  constructor
  · rintro ⟨x, hx, hp⟩; exact ⟨x, h.mem_iff.mp hx, hp⟩
  · rintro ⟨x, hx, hp⟩; exact ⟨x, h.mem_iff.mpr hx, hp⟩

theorem dictContains_of_mem {α β : Type} [DecidableEq α] {d : PyDict α β}
    {kv : α × β} (h : kv ∈ d) : dictContains kv.1 d = true := by
  rw [dictContains, List.any_eq_true]
  exact ⟨kv, h, by simp⟩

theorem dictContains_insert {α β : Type} [DecidableEq α] (k a : α) (v : β)
    (d : PyDict α β) :
    dictContains k (dictInsert a v d) = (decide (a = k) || dictContains k d) := by
  induction d with
  | nil => simp [dictInsert, dictContains]
  | cons hd tl ih =>
      by_cases h : hd.1 = a
      · simp [dictInsert, dictContains, h]
      · cases hd
        simp only [dictInsert, if_neg h, dictContains, List.any_cons] at ih ⊢
        rw [ih]
        cases decide (a = k) <;> simp

theorem dictLookup_isSome_of_contains {α β : Type} [DecidableEq α] {k : α}
    {d : PyDict α β} (h : dictContains k d = true) :
    ∃ v, dictLookup k d = some v := by
  induction d with
  | nil => simp [dictContains] at h
  | cons hd tl ih =>
      by_cases hk : hd.1 = k
      · exact ⟨hd.2, by simp [dictLookup, hk]⟩
      · rw [dictContains, List.any_cons] at h
        simp [hk] at h
        obtain ⟨v, hv⟩ := ih (by rw [dictContains, List.any_eq_true]; simpa using h)
        exact ⟨v, by simp [dictLookup, hk, hv]⟩

theorem dictContains_foldInsert {α β γ : Type} [DecidableEq α] (k : α) (v : β)
    (l : List (α × γ)) (d0 : PyDict α β) :
    dictContains k (l.foldl (fun d kv => dictInsert kv.1 v d) d0)
      = (dictContains k d0 || l.any (fun kv => decide (kv.1 = k))) := by
  induction l generalizing d0 with
  | nil => simp
  | cons hd tl ih =>
      rw [List.foldl_cons, ih, dictContains_insert, List.any_cons]
      cases h1 : dictContains k d0 <;> cases h2 : decide (hd.1 = k) <;> simp_all

theorem pyGet_mem {α : Type} {l : List α} {i : Int} {x : α}
    (h : pyGet l i = some x) : x ∈ l := by
  simp only [pyGet] at h
  split at h
  all_goals
    first
      | exact List.get?_mem h
      | cases h
      | (split at h <;> first | exact List.get?_mem h | cases h)

theorem pyGet_nonneg {α : Type} (l : List α) (i : Int) (h : 0 ≤ i) :
    pyGet l i = l.get? i.toNat := by
  have h1 : ¬ i < 0 := not_lt.mpr h
  simp [pyGet, h1]

theorem applyShuffleAux_perm {α : Type} (fuel : Nat) (σ : List Nat)
    (l : List α) : List.Perm (applyShuffleAux fuel σ l) l := by
  induction fuel generalizing σ l with
  | zero => cases σ <;> exact List.Perm.refl _
  | succ n ih =>
      cases σ with
      | nil => exact List.Perm.refl _
      | cons k σ' =>
          rw [applyShuffleAux]
          cases hg : l.get? (k % l.length) with
          | none => exact List.Perm.refl _
          | some x =>
              have hlt : k % l.length < l.length := by
                obtain ⟨hlen, -⟩ := List.get?_eq_some.mp hg
                exact hlen
              have hx : l[k % l.length] = x := by
                rw [List.get?_eq_some] at hg
                obtain ⟨h1, h2⟩ := hg
                simpa using h2
              refine List.Perm.trans (List.Perm.cons x (ih _ _)) ?_
              have hsplit : l.take (k % l.length) ++ x :: l.drop (k % l.length + 1) = l := by
                conv_rhs => rw [← List.take_append_drop (k % l.length) l]
                rw [List.drop_eq_getElem_cons hlt, hx]
              calc List.Perm (x :: (l.take (k % l.length) ++ l.drop (k % l.length + 1)))
                    (l.take (k % l.length) ++ x :: l.drop (k % l.length + 1)) :=
                      List.perm_middle.symm
                _ = l := hsplit

theorem applyShuffle_perm {α : Type} (σ : List Nat) (l : List α) :
    List.Perm (applyShuffle σ l) l :=
  applyShuffleAux_perm l.length σ l

/-! ### The session invariant and its preservation by every event -/

/-- Invariants linking the round-scoped fields of a reachable session. -/
structure Inv (g : Game) : Prop where
  selSub : ∀ l, g.answer_selection_list = some l →
      ∀ pr ∈ l, dictContains pr.1 g.answers = true
  caSub : ∀ p, g.correct_answer = some p → dictContains p g.answers = true
  votesNil : g.correct_answer = none → g.votes = []
  votesKeys : g.correct_answer ≠ none →
      ∀ k, dictContains k g.votes = dictContains k g.answers
  setterNoAns : ∀ s, g.question_setter = some s →
      dictContains s g.answers = false
  qOrphan : pyTruthyStr g.question = true → g.question_setter = none →
      g.correct_answer ≠ none
  selExcl : g.answer_selection_list ≠ none → g.correct_answer = none

theorem inv_init : Inv initGame := by
  refine ⟨?_, ?_, ?_, ?_, ?_, ?_, ?_⟩ <;> intros <;> simp_all [initGame, pyTruthyStr]

/-- `start_round` preserves the invariant (also on its `IndexError` path,
where only `setter_index` has been mutated). -/
theorem inv_start_round {g : Game} (h : Inv g) : Inv (start_round g).1 := by
  rw [start_round]
  split
  · exact h
  · dsimp only
    split
    · exact ⟨h.selSub, h.caSub, h.votesNil, h.votesKeys, h.setterNoAns,
        h.qOrphan, h.selExcl⟩
    · refine ⟨?_, ?_, ?_, ?_, ?_, ?_, ?_⟩ <;> intros <;> simp_all [pyTruthyStr, dictContains]

/-- Changing only `players` and `scores` leaves the invariant intact. -/
theorem inv_players_scores {g : Game} (pl : List Player)
    (sc : PyDict Player Int) (h : Inv g) :
    Inv { g with players := pl, scores := sc } :=
  ⟨h.selSub, h.caSub, h.votesNil, h.votesKeys, h.setterNoAns, h.qOrphan,
    h.selExcl⟩

theorem inv_add_players {g : Game} (ps : List Player) (h : Inv g) :
    Inv (add_players ps g).1 := by
  simp only [add_players]
  split
  · exact inv_start_round (inv_players_scores _ _ h)
  · exact inv_players_scores _ _ h

/-- `request_answer_selection` preserves the invariant whenever no correct
answer has been chosen yet (true at its only call site). -/
theorem inv_request_answer_selection {g : Game} (σ : List Nat) (h : Inv g)
    (hca : g.correct_answer = none) : Inv (request_answer_selection σ g) := by
  rw [request_answer_selection]
  split
  · exact h
  · refine ⟨?_, h.caSub, h.votesNil, h.votesKeys, h.setterNoAns, h.qOrphan, ?_⟩
    · intro l hl pr hpr
      have hl' := Option.some.inj hl
      subst hl'
      exact dictContains_of_mem ((applyShuffle_perm σ g.answers).mem_iff.mp hpr)
    · intro _
      exact hca

theorem inv_select_answer {g : Game} (σ : List Nat) (index : Int)
    (h : Inv g) : Inv (select_answer σ index g) := by
  simp only [select_answer]
  split
  · exact h
  · split
    · exact h
    · split
      · exact h
      · next pr hpr =>
        have hmem : pr ∈ g.answer_selection_list.getD [] := pyGet_mem hpr
        cases hsel : g.answer_selection_list with
        | none => rw [hsel] at hmem; simp at hmem
        | some l =>
            rw [hsel] at hmem
            simp only [Option.getD_some] at hmem
            have hca : g.correct_answer = none := h.selExcl (by rw [hsel]; simp)
            have hvotes : g.votes = [] := h.votesNil hca
            refine ⟨?_, ?_, ?_, ?_, ?_, ?_, ?_⟩
            · intro l' hl'
              exact Option.noConfusion hl'
            · intro p hp
              have := Option.some.inj hp
              subst this
              exact h.selSub l hsel pr hmem
            · intro hc
              exact Option.noConfusion hc
            · intro _ k
              show dictContains k (List.foldl _ g.votes _) = dictContains k g.answers
              rw [hvotes, dictContains_foldInsert]
              show (false || _) = _
              rw [Bool.false_or,
                any_eq_of_perm (applyShuffle_perm σ g.answers)
                  (fun kv => decide (kv.1 = k))]
              rfl
            · intro s hs
              exact h.setterNoAns s hs
            · intro hq hs
              simp
            · intro hne
              exact absurd rfl hne

theorem inv_handle_player_message {g : Game} (σ : List Nat) (author : Player)
    (content : String) (h : Inv g) :
    Inv (handle_player_message σ author content g) := by
  simp only [handle_player_message]
  split
  · exact h
  next hq =>
    split
    · split
      · exact h
      · split
        · exact inv_select_answer σ _ h
        · exact h
    next hauth =>
      split
      · exact h
      next hguard =>
        have hqt : pyTruthyStr g.question = true := by
          revert hq; cases pyTruthyStr g.question <;> simp
        have hca : g.correct_answer = none := by
          revert hguard; cases hco : g.correct_answer <;> simp [hco]
        have hselF : pyTruthyList g.answer_selection_list = false := by
          revert hguard; cases pyTruthyList g.answer_selection_list <;> simp
        have hqsne : g.question_setter ≠ none := by
          intro hqs
          exact absurd hca (h.qOrphan hqt hqs)
        have hInv1 :
            Inv { g with answers := dictInsert author (pyStrip content) g.answers } := by
          refine ⟨?_, ?_, ?_, ?_, ?_, ?_, ?_⟩
          · intro l hl pr hpr
            have hnil : l = [] := by
              rw [hl] at hselF
              cases l with
              | nil => rfl
              | cons a t => simp [pyTruthyList] at hselF
            rw [hnil] at hpr
            cases hpr
          · intro p hp
            rw [show ({ g with answers := dictInsert author (pyStrip content) g.answers
                } : Game).correct_answer = g.correct_answer from rfl, hca] at hp
            cases hp
          · intro _
            exact h.votesNil hca
          · intro hne
            exact absurd hca hne
          · intro s' hs'
            have hs'' : g.question_setter = some s' := hs'
            have has : author ≠ s' := by
              intro he
              subst he
              exact hauth (by rw [hs''])
            show dictContains s' (dictInsert author (pyStrip content) g.answers) = false
            rw [dictContains_insert]
            have h1 : decide (author = s') = false := by
              simp [has]
            rw [h1, Bool.false_or]
            exact h.setterNoAns s' hs''
          · intro _ hsn
            exact absurd hsn hqsne
          · intro _
            exact hca
        split
        · exact inv_request_answer_selection σ hInv1 hca
        · exact hInv1

theorem inv_votes_insert {g : Game} (h : Inv g) (p : Player) (v : Int)
    (hp : dictContains p g.votes = true) (hca : g.correct_answer ≠ none) :
    Inv { g with votes := dictInsert p v g.votes } := by
  refine ⟨h.selSub, h.caSub, ?_, ?_, h.setterNoAns, h.qOrphan, h.selExcl⟩
  · intro hc
    exact absurd hc hca
  · intro _ k
    show dictContains k (dictInsert p v g.votes) = dictContains k g.answers
    rw [dictContains_insert, ← h.votesKeys hca k]
    by_cases hk : p = k
    · subst hk
      simp [hp]
    · simp [hk]

theorem inv_clear_setter {g : Game} (h : Inv g)
    (hca : g.correct_answer ≠ none) : Inv { g with question_setter := none } := by
  refine ⟨h.selSub, h.caSub, h.votesNil, h.votesKeys, ?_, ?_, h.selExcl⟩
  · intro s hs
    cases hs
  · intro _ _
    exact hca

/-- The common tail of `handle_reaction` after a vote has been accepted:
the weight update, the completion scan, and the reveal. -/
theorem inv_reaction_tail {g1 : Game} (h1 : Inv g1) {ca : Player}
    (hca : g1.correct_answer = some ca) :
    Inv (if g1.votes.all (fun kv => 2 ≤ kv.2) = false
         then (g1, (none : Option PyErr))
         else
           match dictLookup ca g1.answers with
           | none => (g1, some PyErr.keyError)
           | some _ => ({ g1 with question_setter := none }, none)).1 := by
  have hcane : g1.correct_answer ≠ none := by rw [hca]; simp
  split
  · exact h1
  · split
    · exact h1
    · exact inv_clear_setter h1 hcane

theorem inv_handle_reaction {g : Game} (mem : Option Player) (emoji : String)
    (mid : MsgId) (h : Inv g) : Inv (handle_reaction mem emoji mid g).1 := by
  simp only [handle_reaction]
  split
  · exact h
  next ca heq =>
    split
    · exact h
    · split
      · exact h
      next player =>
        split
        · exact h
        next htr =>
          split
          · exact h
          · have htr' : dictContains player g.votes = true := by
              revert htr; cases dictContains player g.votes <;> simp
            have hcane : g.correct_answer ≠ none := by rw [heq]; simp
            exact inv_reaction_tail
              (inv_votes_insert h player
                ((dictLookup player g.votes).getD 0 +
                  if emoji = "2️⃣" then 2 else 1) htr' hcane)
              heq

theorem inv_handle_channel_message {g : Game} (author : Player)
    (content : String) (mentions : List Player) (h : Inv g) :
    Inv (handle_channel_message author content mentions g).1 := by
  simp only [handle_channel_message]
  split
  · exact inv_start_round h
  · split
    · exact inv_add_players mentions h
    · split
      · split
        · exact h
        · split
          · exact h
          next hne =>
            have hqs : some author = g.question_setter := not_not.mp hne
            refine ⟨h.selSub, h.caSub, h.votesNil, h.votesKeys, h.setterNoAns,
              ?_, h.selExcl⟩
            intro _ hsn
            rw [show ({ g with question := some (pyStrip (pyDrop content 10))
                } : Game).question_setter = g.question_setter from rfl, hsn] at hqs
            cases hqs
      · exact h

/-- Every event step preserves the invariant. -/
theorem inv_step {g : Game} (e : Event) (h : Inv g) : Inv (step e g).1 := by
  cases e with
  | join ps => exact inv_add_players ps h
  | channelMsg a c m => exact inv_handle_channel_message a c m h
  | playerMsg a c σ => exact inv_handle_player_message σ a c h
  | reaction mem emoji mid => exact inv_handle_reaction mem emoji mid h

/-- Every reachable session state satisfies the invariant. -/
theorem reachable_inv {g : Game} (h : Reachable g) : Inv g := by
  induction h with
  | start => exact inv_init
  | next e _ ih => exact inv_step e ih

/-! ### Concrete traces

The spec's end-to-end scenario: roster `[A, B, C] = [0, 1, 2]`; the join
auto-starts round 1 with setter A; A sets the question; B and C submit
answers (identity shuffles); A picks entry 1 (B's answer): voting is open. -/

def scenario0 : Game := (step (.join [0, 1, 2]) initGame).1

def scenario1 : Game :=
  (step (.channelMsg 0 "!question What would you say?" []) scenario0).1

def scenario2 : Game := (step (.playerMsg 1 "pizza" []) scenario1).1

def scenario3 : Game := (step (.playerMsg 2 "tacos" []) scenario2).1

def scenarioVoting : Game := (step (.playerMsg 0 "1" []) scenario3).1

theorem scenarioVoting_reachable : Reachable scenarioVoting :=
  .next _ (.next _ (.next _ (.next _ (.next _ .start))))

/-- B then C cast one high-confidence vote each. -/
def scenarioAfterB : Game :=
  (step (.reaction (some 1) "2️⃣" 0) scenarioVoting).1

def scenarioDone : Game :=
  (step (.reaction (some 2) "2️⃣" 1) scenarioAfterB).1

/-- A two-player session `[0, 1]` that has completed one full round:
B answered, A picked it, B's single high-confidence vote completed the
round (`question_setter` is clear again). -/
def twoP0 : Game := (step (.join [0, 1]) initGame).1

def twoP1 : Game := (step (.channelMsg 0 "!question Best pet?" []) twoP0).1

def twoP2 : Game := (step (.playerMsg 1 "cat" []) twoP1).1

def twoP3 : Game := (step (.playerMsg 0 "1" []) twoP2).1

def scenarioTwoDone : Game := (step (.reaction (some 1) "2️⃣" 0) twoP3).1

/-! ### Claims -/

/-- C1 counterexample: in the reachable state of the spec's own scenario
(roster `[0, 1, 2]`, setter 0, voting open on player 1's answer), the
setter 0 is a roster member but not a key of the vote-weight map, and the
round completes after only players 1 and 2 cast high-confidence votes,
while 0's credit is 0 — contradicting both the claimed key set and the
claimed non-completion. -/
theorem c1_counterexample :
    scenarioVoting.correct_answer = some 1
    ∧ scenarioVoting.players = [0, 1, 2]
    ∧ scenarioVoting.question_setter = some 0
    ∧ dictContains 0 scenarioVoting.votes = false
    ∧ dictContains 0 scenarioDone.votes = false
    ∧ scenarioDone.question_setter = none := by
  decide

/-- C1 (amended): in every reachable state in which voting is open, the
keys of the vote-weight map are exactly the keys of the answers map — the
non-setter participants who submitted answers — and the setter is never
among them; completion therefore requires only every answerer's credit to
reach 2. -/
theorem c1_amended (g : Game) (hg : Reachable g) (p : Player)
    (hvoting : g.correct_answer = some p) :
    (∀ k, dictContains k g.votes = dictContains k g.answers)
    ∧ (∀ s, g.question_setter = some s → dictContains s g.votes = false) := by
  have hInv := reachable_inv hg
  have hne : g.correct_answer ≠ none := by rw [hvoting]; simp
  refine ⟨hInv.votesKeys hne, ?_⟩
  intro s hs
  rw [hInv.votesKeys hne s]
  exact hInv.setterNoAns s hs

theorem c1_amended_witness :
    dictContains 1 scenarioVoting.votes = dictContains 1 scenarioVoting.answers
    ∧ dictContains 0 scenarioVoting.votes = false :=
  ⟨(c1_amended scenarioVoting scenarioVoting_reachable 1 rfl).1 1,
   (c1_amended scenarioVoting scenarioVoting_reachable 1 rfl).2 0 rfl⟩

/-- C2 (code bug): while voting is open, a reaction with a valid confidence
emoji from tracked voter 1 whose message id (99) matches none of the posted
vote prompts is not silently ignored: the defaultless `next(...)` raises
`StopIteration` (surfaced as an exception by the coroutine). -/
theorem c2_code_bug :
    Reachable scenarioVoting
    ∧ scenarioVoting.correct_answer.isSome = true
    ∧ dictContains 1 scenarioVoting.votes = true
    ∧ scenarioVoting.vote_messages.find? (fun m => m.1 = 99) = none
    ∧ (handle_reaction (some 1) "2️⃣" 99 scenarioVoting).2
        = some PyErr.stopIteration :=
  ⟨scenarioVoting_reachable, by decide, by decide, by decide, by decide⟩

/-- C3 (code bug): `!nextround` on a session with an empty roster is not a
safe no-op: `start_round` hits `IndexError` (indexing `players[0]` of an
empty list), and has already mutated `setter_index` from -1 to 0. -/
theorem c3_code_bug :
    initGame.players = []
    ∧ (step (Event.channelMsg 0 "!nextround" []) initGame).2
        = some PyErr.indexError
    ∧ (step (Event.channelMsg 0 "!nextround" []) initGame).1.setter_index = 0 := by
  decide

/-! ### Round-robin rotation (C4) -/

/-- A session holding a fixed roster, before any round has been played. -/
def mkGame (roster : List Player) : Game :=
  { players := roster, scores := roster.map (fun p => (p, 0)) }

/-- The state after `n` consecutive completed rounds on a fixed roster:
each round is opened by `start_round` and closed by the completion
transition, which clears `question_setter` (no other round event touches
`setter_index`, `question_setter` or `players`). -/
def iterRounds (roster : List Player) : Nat → Game
  | 0 => mkGame roster
  | n + 1 =>
      { (start_round (iterRounds roster n)).1 with question_setter := none }

theorem succ_mod (m K : Nat) (hK : 0 < K) :
    (m + 1) % K = if m % K + 1 = K then 0 else m % K + 1 := by
  conv_lhs => rw [← Nat.div_add_mod m K, Nat.add_assoc]
  rw [Nat.mul_add_mod]
  by_cases h : m % K + 1 = K
  · rw [if_pos h, h, Nat.mod_self]
  · have hlt : m % K + 1 < K :=
      lt_of_le_of_ne (Nat.succ_le_of_lt (Nat.mod_lt m hK)) h
    rw [if_neg h, Nat.mod_eq_of_lt hlt]

/-- Starting round `n + 1` (counting from 0) from a state whose cursor
records `n` completed rounds selects setter `roster[n % K]` and resets all
round-scoped state. -/
theorem start_round_mod (g : Game) (n : Nat) (hq : g.question_setter = none)
    (hne : g.players ≠ [])
    (hidx : g.setter_index =
      if n = 0 then (-1 : Int)
      else (((n - 1) % g.players.length : Nat) : Int)) :
    (start_round g).1.question_setter = g.players.get? (n % g.players.length)
    ∧ (start_round g).1.setter_index = ((n % g.players.length : Nat) : Int)
    ∧ (start_round g).2 = none
    ∧ (start_round g).1.players = g.players
    ∧ (start_round g).1.question = none
    ∧ (start_round g).1.answers = []
    ∧ (start_round g).1.answer_selection_list = none
    ∧ (start_round g).1.correct_answer = none
    ∧ (start_round g).1.vote_messages = []
    ∧ (start_round g).1.votes = [] := by
  have hK : 0 < g.players.length := List.length_pos.mpr hne
  have key :
      (if (g.players.length : Int) ≤ g.setter_index + 1 then 0
        else g.setter_index + 1) = ((n % g.players.length : Nat) : Int) := by
    cases n with
    | zero =>
        have hidx0 : g.setter_index = -1 := by rw [hidx]; simp
        rw [hidx0, if_neg (by omega)]
        norm_num
    | succ m =>
        have hidx1 : g.setter_index =
            ((m % g.players.length : Nat) : Int) := by
          rw [hidx, if_neg (Nat.succ_ne_zero m)]
          simp
        rw [hidx1, succ_mod m _ hK]
        by_cases h : m % g.players.length + 1 = g.players.length
        · rw [if_pos h, if_pos (by push_cast; omega)]
          simp
        · have hlt : m % g.players.length + 1 < g.players.length :=
            lt_of_le_of_ne (Nat.succ_le_of_lt (Nat.mod_lt m hK)) h
          rw [if_neg h, if_neg (by push_cast; omega)]
          push_cast
          ring
  have hjlt : n % g.players.length < g.players.length := Nat.mod_lt n hK
  obtain ⟨p, hp⟩ : ∃ p, g.players.get? (n % g.players.length) = some p :=
    ⟨_, List.get?_eq_get hjlt⟩
  have hpy : pyGet g.players ((n % g.players.length : Nat) : Int) = some p := by
    rw [pyGet_nonneg _ _ (by positivity)]
    simpa using hp
  have hred : start_round g =
      ({ g with
          setter_index := ((n % g.players.length : Nat) : Int),
          question_setter := some p, question := none, answers := [],
          correct_answer := none, answer_selection_list := none,
          vote_messages := [], votes := [] }, none) := by
    simp only [start_round, hq, key, hpy]
  rw [hred]
  exact ⟨hp.symm, rfl, rfl, rfl, rfl, rfl, rfl, rfl, rfl, rfl⟩

theorem iterRounds_spec (roster : List Player) (hr : roster ≠ []) (n : Nat) :
    (iterRounds roster n).players = roster
    ∧ (iterRounds roster n).question_setter = none
    ∧ (iterRounds roster n).setter_index =
        (if n = 0 then (-1 : Int)
          else (((n - 1) % roster.length : Nat) : Int)) := by
  induction n with
  | zero => exact ⟨rfl, rfl, rfl⟩
  | succ m ih =>
      obtain ⟨hp, hq, hi⟩ := ih
      have hne : (iterRounds roster m).players ≠ [] := by rw [hp]; exact hr
      have hidx : (iterRounds roster m).setter_index =
          if m = 0 then (-1 : Int)
          else (((m - 1) % (iterRounds roster m).players.length : Nat) : Int) := by
        rw [hp]
        exact hi
      have h := start_round_mod (iterRounds roster m) m hq hne hidx
      refine ⟨?_, rfl, ?_⟩
      · show (start_round (iterRounds roster m)).1.players = roster
        rw [h.2.2.2.1, hp]
      · show (start_round (iterRounds roster m)).1.setter_index = _
        rw [h.2.1, hp, if_neg (Nat.succ_ne_zero m)]
        simp

/-- C4: with a fixed non-empty roster, the setter opened by `start_round`
for round `n + 1` (0-based `n`) is `roster[n % K]` — the roster cycled
round-robin from index 0 — and `start_round` resets every piece of
round-scoped state to empty. -/
theorem c4 (roster : List Player) (hr : roster ≠ []) (n : Nat) :
    (start_round (iterRounds roster n)).1.question_setter
        = roster.get? (n % roster.length)
    ∧ (start_round (iterRounds roster n)).1.question = none
    ∧ (start_round (iterRounds roster n)).1.answers = []
    ∧ (start_round (iterRounds roster n)).1.answer_selection_list = none
    ∧ (start_round (iterRounds roster n)).1.correct_answer = none
    ∧ (start_round (iterRounds roster n)).1.vote_messages = []
    ∧ (start_round (iterRounds roster n)).1.votes = [] := by
  obtain ⟨hp, hq, hi⟩ := iterRounds_spec roster hr n
  have h := start_round_mod (iterRounds roster n) n hq (by rw [hp]; exact hr)
    (by rw [hp]; exact hi)
  refine ⟨?_, h.2.2.2.2.1, h.2.2.2.2.2.1, h.2.2.2.2.2.2.1,
    h.2.2.2.2.2.2.2.1, h.2.2.2.2.2.2.2.2.1, h.2.2.2.2.2.2.2.2.2⟩
  rw [h.1, hp]

theorem c4_witness :
    (start_round (iterRounds [5, 6] 3)).1.question_setter
        = [5, 6].get? (3 % [5, 6].length)
    ∧ (start_round (iterRounds [5, 6] 3)).1.question = none
    ∧ (start_round (iterRounds [5, 6] 3)).1.answers = []
    ∧ (start_round (iterRounds [5, 6] 3)).1.answer_selection_list = none
    ∧ (start_round (iterRounds [5, 6] 3)).1.correct_answer = none
    ∧ (start_round (iterRounds [5, 6] 3)).1.vote_messages = []
    ∧ (start_round (iterRounds [5, 6] 3)).1.votes = [] :=
  c4 [5, 6] (by decide) 3

/-- C5: an accepted vote never surfaces an error and never touches scores;
it completes the round — clearing `question_setter`, which is exactly what
makes `start_round` callable again — iff every tracked voter's accumulated
weight after the vote is ≥ 2; otherwise the setter and the chosen answerer
survive unchanged. -/
theorem c5 (g : Game) (player ca : Player) (emoji : String) (mid : MsgId)
    (hca : g.correct_answer = some ca)
    (hemoji : emoji = "1️⃣" ∨ emoji = "2️⃣")
    (htr : dictContains player g.votes = true)
    (hmsg : (g.vote_messages.find? (fun m => m.1 = mid)).isSome = true)
    (hans : dictContains ca g.answers = true) :
    (handle_reaction (some player) emoji mid g).2 = none
    ∧ (handle_reaction (some player) emoji mid g).1.scores = g.scores
    ∧ ((handle_reaction (some player) emoji mid g).1.votes.all
          (fun kv => 2 ≤ kv.2) = true →
        (handle_reaction (some player) emoji mid g).1.question_setter = none)
    ∧ ((handle_reaction (some player) emoji mid g).1.votes.all
          (fun kv => 2 ≤ kv.2) = false →
        (handle_reaction (some player) emoji mid g).1.question_setter
            = g.question_setter
        ∧ (handle_reaction (some player) emoji mid g).1.correct_answer
            = g.correct_answer) := by
  obtain ⟨m, hm⟩ := Option.isSome_iff_exists.mp hmsg
  obtain ⟨v, hv⟩ := dictLookup_isSome_of_contains hans
  have hguard : ¬((emoji ≠ "1️⃣" && emoji ≠ "2️⃣") = true) := by
    rcases hemoji with he | he <;> subst he <;> decide
  simp only [handle_reaction, hca, htr, hm, hv]
  rw [if_neg hguard, if_neg (by decide)]
  split <;>
  · split
    next hb =>
      refine ⟨rfl, rfl, ?_, fun _ => ⟨rfl, rfl⟩⟩
      intro hall
      rw [hall] at hb
      cases hb
    next hb =>
      refine ⟨rfl, rfl, fun _ => rfl, ?_⟩
      intro hfalse
      exact absurd hfalse hb

theorem c5_witness :
    (handle_reaction (some 1) "2️⃣" 0 scenarioVoting).2 = none
    ∧ (handle_reaction (some 1) "2️⃣" 0 scenarioVoting).1.scores
        = scenarioVoting.scores
    ∧ ((handle_reaction (some 1) "2️⃣" 0 scenarioVoting).1.votes.all
          (fun kv => 2 ≤ kv.2) = true →
        (handle_reaction (some 1) "2️⃣" 0 scenarioVoting).1.question_setter
            = none)
    ∧ ((handle_reaction (some 1) "2️⃣" 0 scenarioVoting).1.votes.all
          (fun kv => 2 ≤ kv.2) = false →
        (handle_reaction (some 1) "2️⃣" 0 scenarioVoting).1.question_setter
            = scenarioVoting.question_setter
        ∧ (handle_reaction (some 1) "2️⃣" 0 scenarioVoting).1.correct_answer
            = scenarioVoting.correct_answer) :=
  c5 scenarioVoting 1 1 "2️⃣" 0 (by decide) (Or.inr rfl) (by decide)
    (by decide) (by decide)

/-- C6: with a selection pool of size `n`, `select_answer 0` and
`select_answer (n + 1)` return the state entirely unchanged, while
`select_answer k` for `1 ≤ k ≤ n` sets the chosen answerer to the author of
the k-th pool entry and clears the pool. -/
theorem c6 (σ : List Nat) (g : Game) (pool : List (Player × String))
    (hpool : g.answer_selection_list = some pool) :
    select_answer σ 0 g = g
    ∧ select_answer σ ((pool.length : Int) + 1) g = g
    ∧ (∀ k : Nat, 1 ≤ k → k ≤ pool.length →
        ∃ pr, pool.get? (k - 1) = some pr
          ∧ (select_answer σ (k : Int) g).correct_answer = some pr.1
          ∧ (select_answer σ (k : Int) g).answer_selection_list = none) := by
  refine ⟨?_, ?_, ?_⟩
  · simp only [select_answer]
    rw [if_pos (by norm_num)]
  · simp only [select_answer, hpool, Option.getD_some]
    rw [if_neg (by norm_num), if_pos (by omega)]
  · intro k hk1 hk2
    have hlt : k - 1 < pool.length := by omega
    obtain ⟨pr, hpr⟩ : ∃ pr, pool.get? (k - 1) = some pr :=
      ⟨_, List.get?_eq_get hlt⟩
    have hpy : pyGet pool ((k : Int) - 1) = some pr := by
      have hcast : ((k : Int) - 1) = ((k - 1 : Nat) : Int) := by
        push_cast [hk1]
        ring
      rw [hcast, pyGet_nonneg _ _ (by positivity)]
      simpa using hpr
    refine ⟨pr, hpr, ?_, ?_⟩ <;>
      · simp only [select_answer, hpool, Option.getD_some, hpy]
        rw [if_neg (by omega), if_neg (by omega)]

theorem c6_witness :
    select_answer [] 0 scenario3 = scenario3
    ∧ select_answer [] (((scenario3.answer_selection_list.getD []).length : Int) + 1)
        scenario3 = scenario3
    ∧ (∃ pr, (scenario3.answer_selection_list.getD []).get? 0 = some pr
        ∧ (select_answer [] (1 : Int) scenario3).correct_answer = some pr.1
        ∧ (select_answer [] (1 : Int) scenario3).answer_selection_list = none) := by
  have h := c6 [] scenario3 (scenario3.answer_selection_list.getD [])
    (by decide)
  exact ⟨h.1, h.2.1, h.2.2 1 (by decide) (by decide)⟩

/-! ### Roster growth (C7, C8) -/

theorem dictLookup_insert_self {α β : Type} [DecidableEq α] (a : α) (v : β)
    (d : PyDict α β) : dictLookup a (dictInsert a v d) = some v := by
  induction d with
  | nil => simp [dictInsert, dictLookup]
  | cons hd tl ih =>
      obtain ⟨f, w⟩ := hd
      by_cases h : f = a
      · subst h
        simp [dictInsert, dictLookup]
      · simp [dictInsert, dictLookup, h, ih]

theorem dictLookup_insert_ne {α β : Type} [DecidableEq α] {k a : α}
    (h : a ≠ k) (v : β) (d : PyDict α β) :
    dictLookup k (dictInsert a v d) = dictLookup k d := by
  induction d with
  | nil => simp [dictInsert, dictLookup, h]
  | cons hd tl ih =>
      obtain ⟨f, w⟩ := hd
      by_cases h1 : f = a
      · subst h1
        simp [dictInsert, dictLookup, h]
      · simp [dictInsert, dictLookup, h1, ih]

/-- `start_round` never touches the roster or the scores, on any of its
paths. -/
theorem start_round_frame (g : Game) :
    (start_round g).1.players = g.players
    ∧ (start_round g).1.scores = g.scores := by
  rw [start_round]
  split
  · exact ⟨rfl, rfl⟩
  · dsimp only
    split <;> exact ⟨rfl, rfl⟩

/-- The roster/score loop of `add_players`: the roster grows by first-seen
appends, and the stored score of every roster member is 0. -/
theorem rosterFold_spec (ps : List Player) (pl : List Player)
    (sc : PyDict Player Int)
    (hsc : ∀ q, dictLookup q sc = if pl.contains q then some 0 else none) :
    (ps.foldl
        (fun (acc : List Player × PyDict Player Int) p =>
          if acc.1.contains p then acc
          else (acc.1 ++ [p], dictInsert p 0 acc.2)) (pl, sc)).1
      = ps.foldl (fun acc p => if acc.contains p then acc else acc ++ [p]) pl
    ∧ ∀ q, dictLookup q
        (ps.foldl
          (fun (acc : List Player × PyDict Player Int) p =>
            if acc.1.contains p then acc
            else (acc.1 ++ [p], dictInsert p 0 acc.2)) (pl, sc)).2
      = if (ps.foldl (fun acc p => if acc.contains p then acc else acc ++ [p])
            pl).contains q
        then some 0 else none := by
  induction ps generalizing pl sc with
  | nil => exact ⟨rfl, hsc⟩
  | cons p rest ih =>
      simp only [List.foldl_cons]
      by_cases hp : pl.contains p
      · simp only [if_pos hp]
        exact ih pl sc hsc
      · simp only [if_neg hp]
        refine ih (pl ++ [p]) (dictInsert p 0 sc) ?_
        intro q
        by_cases hq : p = q
        · subst hq
          rw [dictLookup_insert_self, if_pos (by simp)]
        · rw [dictLookup_insert_ne hq, hsc q]
          have hcontain : (pl ++ [p]).contains q = pl.contains q := by
            cases hc : pl.contains q <;> simp_all
            exact fun h2 => hq h2.symm
          simp only [hcontain]

theorem add_players_spec (ps : List Player) (g : Game)
    (hsc : ∀ q, dictLookup q g.scores
      = if g.players.contains q then some 0 else none) :
    (add_players ps g).1.players
      = ps.foldl (fun acc p => if acc.contains p then acc else acc ++ [p])
          g.players
    ∧ ∀ q, dictLookup q (add_players ps g).1.scores
      = if (add_players ps g).1.players.contains q then some 0 else none := by
  obtain ⟨h1, h2⟩ := rosterFold_spec ps g.players g.scores hsc
  simp only [add_players]
  split
  · constructor
    · rw [(start_round_frame _).1]
      exact h1
    · intro q
      rw [(start_round_frame _).1, (start_round_frame _).2]
      show dictLookup q
        (ps.foldl
          (fun (acc : List Player × PyDict Player Int) p =>
            if acc.1.contains p then acc
            else (acc.1 ++ [p], dictInsert p 0 acc.2)) (g.players, g.scores)).2 = _
      rw [h2 q, h1]
  · constructor
    · exact h1
    · intro q
      rw [h2 q, h1]

/-- A fresh session joined by a sequence of batches. -/
def joinAll (batches : List (List Player)) : Game :=
  batches.foldl (fun g ps => (add_players ps g).1) initGame

/-- The spec's description of the roster after a sequence of joins: every
distinct participant exactly once, in first-seen order (spec-side
definition for comparison with the code's fold). -/
def firstSeen (ps : List Player) : List Player :=
  ps.foldl (fun acc p => if acc.contains p then acc else acc ++ [p]) []

theorem joinFold_spec (bss : List (List Player)) (g : Game)
    (hsc : ∀ q, dictLookup q g.scores
      = if g.players.contains q then some 0 else none) :
    (bss.foldl (fun g ps => (add_players ps g).1) g).players
      = bss.flatten.foldl
          (fun acc p => if acc.contains p then acc else acc ++ [p]) g.players
    ∧ ∀ q, dictLookup q (bss.foldl (fun g ps => (add_players ps g).1) g).scores
      = if (bss.foldl (fun g ps => (add_players ps g).1) g).players.contains q
        then some 0 else none := by
  induction bss generalizing g with
  | nil => exact ⟨rfl, hsc⟩
  | cons b rest ih =>
      simp only [List.foldl_cons, List.flatten_cons, List.foldl_append]
      obtain ⟨h1, h2⟩ := add_players_spec b g hsc
      obtain ⟨h3, h4⟩ := ih (add_players b g).1 h2
      refine ⟨?_, h4⟩
      rw [h3, h1]

theorem firstSeenFold_nodup (ps : List Player) (acc : List Player)
    (h : acc.Nodup) :
    (ps.foldl (fun acc p => if acc.contains p then acc else acc ++ [p])
      acc).Nodup := by
  induction ps generalizing acc with
  | nil => exact h
  | cons p rest ih =>
      simp only [List.foldl_cons]
      by_cases hp : acc.contains p
      · simp only [if_pos hp]
        exact ih acc h
      · simp only [if_neg hp]
        refine ih _ ?_
        rw [List.nodup_append]
        refine ⟨h, List.nodup_singleton p, ?_⟩
        intro x hx hxp
        simp only [List.mem_singleton] at hxp
        subst hxp
        have hxmem : x ∉ acc := by simpa using hp
        exact hxmem hx

/-- C7: after any sequence of Join calls on a fresh session, the roster
lists each distinct participant exactly once (Nodup), in first-seen input
order (duplicate joins are skipped without disturbing positions), and every
roster member's stored score is 0 while non-members have no score entry. -/
theorem c7 (bss : List (List Player)) :
    (joinAll bss).players = firstSeen bss.flatten
    ∧ (joinAll bss).players.Nodup
    ∧ ∀ q, dictLookup q (joinAll bss).scores
        = if (joinAll bss).players.contains q then some (0 : Int) else none := by
  have hsc0 : ∀ q, dictLookup q initGame.scores
      = if initGame.players.contains q then some 0 else none := fun _ => rfl
  have h := joinFold_spec bss initGame hsc0
  refine ⟨h.1, ?_, h.2⟩
  show ((bss.foldl (fun g ps => (add_players ps g).1) initGame).players).Nodup
  rw [h.1]
  exact firstSeenFold_nodup _ _ List.nodup_nil

/-- C8 counterexample: a completed round left roster `[0, 1]` (size 2, so
not "fewer than 2 before the call") with no active round; joining player 2
nevertheless starts a round (the next setter, player 1). -/
theorem c8_counterexample :
    scenarioTwoDone.players.length = 2
    ∧ scenarioTwoDone.question_setter = none
    ∧ (step (Event.join [2]) scenarioTwoDone).1.question_setter = some 1 := by
  decide

/-- When no round is active and the roster is non-empty, `start_round`
installs a setter (and keeps the roster). -/
theorem start_round_success (g : Game) (hq : g.question_setter = none)
    (hlen : 1 ≤ g.players.length) (hidx : -1 ≤ g.setter_index) :
    (start_round g).1.question_setter.isSome = true
    ∧ (start_round g).1.players = g.players := by
  obtain ⟨p, hpy⟩ : ∃ p, pyGet g.players
      (if (g.players.length : Int) ≤ g.setter_index + 1 then 0
        else g.setter_index + 1) = some p := by
    have hrange : 0 ≤ (if (g.players.length : Int) ≤ g.setter_index + 1 then 0
          else g.setter_index + 1)
        ∧ (if (g.players.length : Int) ≤ g.setter_index + 1 then 0
            else g.setter_index + 1) < (g.players.length : Int) := by
      split <;> omega
    rw [pyGet_nonneg _ _ hrange.1]
    have hnat : (if (g.players.length : Int) ≤ g.setter_index + 1 then 0
        else g.setter_index + 1).toNat < g.players.length := by omega
    exact ⟨_, List.get?_eq_get hnat⟩
  simp [start_round, hq, hpy]

/-- C8 (amended): a Join call starts a round exactly when, after the call,
the roster has at least 2 members and no round was active — the roster size
before the call is irrelevant; when a round is active the setter is
untouched. -/
theorem c8_amended (ps : List Player) (g : Game)
    (hidx : -1 ≤ g.setter_index) :
    (g.question_setter = none →
      ((add_players ps g).1.question_setter.isSome = true
        ↔ 2 ≤ (add_players ps g).1.players.length))
    ∧ (∀ s, g.question_setter = some s →
        (add_players ps g).1.question_setter = some s) := by
  simp only [add_players]
  set pair := ps.foldl
    (fun (acc : List Player × PyDict Player Int) p =>
      if acc.1.contains p then acc
      else (acc.1 ++ [p], dictInsert p 0 acc.2))
    (g.players, g.scores) with hpair
  constructor
  · intro hq
    split
    next hcond =>
      rw [Bool.and_eq_true] at hcond
      have hlen2 : 2 ≤ pair.1.length := of_decide_eq_true hcond.2
      obtain ⟨hsome, hplayers⟩ := start_round_success
        { g with players := pair.1, scores := pair.2 } hq
        (le_trans one_le_two hlen2) hidx
      refine ⟨fun _ => ?_, fun _ => hsome⟩
      rw [hplayers]
      exact hlen2
    next hcond =>
      constructor
      · intro h1
        rw [hq] at h1
        cases h1
      · intro h2
        exact absurd (by rw [hq]; simpa using h2) hcond
  · intro s hs
    split
    next hcond =>
      rw [Bool.and_eq_true] at hcond
      rw [hs] at hcond
      simp at hcond
    next hcond =>
      exact hs

theorem c8_amended_witness :
    (scenarioTwoDone.question_setter = none →
      ((add_players [2] scenarioTwoDone).1.question_setter.isSome = true
        ↔ 2 ≤ (add_players [2] scenarioTwoDone).1.players.length))
    ∧ (∀ s, scenarioTwoDone.question_setter = some s →
        (add_players [2] scenarioTwoDone).1.question_setter = some s) :=
  c8_amended [2] scenarioTwoDone (by decide)

/-- `request_answer_selection` never changes the answers map. -/
theorem request_answer_selection_answers (σ : List Nat) (g : Game) :
    (request_answer_selection σ g).answers = g.answers := by
  rw [request_answer_selection]
  split <;> rfl

/-- C9: a second accepted answer submission by the same participant in the
same round overwrites the first: the answers map keeps only the trimmed
text of the latest submission. -/
theorem c9 (σ1 σ2 : List Nat) (author : Player) (t1 t2 : String) (g : Game)
    (hq : pyTruthyStr g.question = true)
    (hauth : ¬ some author = g.question_setter)
    (hsel : pyTruthyList g.answer_selection_list = false)
    (hca : g.correct_answer.isSome = false)
    (hlen : ¬ (((dictInsert author (pyStrip t1) g.answers).length : Int)
        = (g.players.length : Int) - 1)) :
    dictLookup author
      (handle_player_message σ2 author t2
        (handle_player_message σ1 author t1 g)).answers
      = some (pyStrip t2) := by
  have hg1 : handle_player_message σ1 author t1 g
      = { g with answers := dictInsert author (pyStrip t1) g.answers } := by
    simp only [handle_player_message]
    rw [if_neg (by rw [hq]; simp), if_neg hauth,
      if_neg (by rw [hsel, hca]; simp), if_neg hlen]
  rw [hg1]
  simp only [handle_player_message]
  rw [if_neg (show ¬(pyTruthyStr g.question = false) by rw [hq]; simp),
    if_neg hauth,
    if_neg (show ¬((pyTruthyList g.answer_selection_list
      || g.correct_answer.isSome) = true) by rw [hsel, hca]; simp)]
  split
  · rw [request_answer_selection_answers]
    exact dictLookup_insert_self author (pyStrip t2) _
  · exact dictLookup_insert_self author (pyStrip t2) _

theorem c9_witness :
    dictLookup 1
      (handle_player_message [] 1 " b "
        (handle_player_message [] 1 " a " scenario1)).answers
      = some (pyStrip " b ") :=
  c9 [] [] 1 " a " " b " scenario1 (by decide) (by decide) (by decide)
    (by decide) (by decide)

/-! ### The answers map is frozen during judging and voting (C10) -/

/-- `select_answer` never changes the answers map. -/
theorem select_answer_answers (σ : List Nat) (index : Int) (g : Game) :
    (select_answer σ index g).answers = g.answers := by
  simp only [select_answer]
  repeat' split
  all_goals rfl

/-- `handle_reaction` never changes the answers map. -/
theorem handle_reaction_answers (mem : Option Player) (emoji : String)
    (mid : MsgId) (g : Game) :
    (handle_reaction mem emoji mid g).1.answers = g.answers := by
  simp only [handle_reaction]
  repeat' split
  all_goals rfl

/-- `start_round` either leaves the answers map alone (no-op and error
paths) or performs the full round reset. -/
theorem start_round_answers (g : Game) :
    ((start_round g).1.answers = g.answers)
    ∨ ((start_round g).1.answers = []
        ∧ (start_round g).1.answer_selection_list = none
        ∧ (start_round g).1.correct_answer = none) := by
  rw [start_round]
  split
  · exact Or.inl rfl
  · dsimp only
    split
    · exact Or.inl rfl
    · exact Or.inr ⟨rfl, rfl, rfl⟩

theorem add_players_answers (ps : List Player) (g : Game) :
    ((add_players ps g).1.answers = g.answers)
    ∨ ((add_players ps g).1.answers = []
        ∧ (add_players ps g).1.answer_selection_list = none
        ∧ (add_players ps g).1.correct_answer = none) := by
  simp only [add_players]
  split
  · exact start_round_answers _
  · exact Or.inl rfl

/-- While the selection pool is open or a chosen answerer is set, no event
mutates the answers map — except a `start_round` reset, which clears the
pool and the chosen answerer together with the answers. -/
theorem answers_frozen (g : Game) (e : Event)
    (h : pyTruthyList g.answer_selection_list = true
      ∨ g.correct_answer.isSome = true) :
    (step e g).1.answers = g.answers
    ∨ ((step e g).1.answers = []
        ∧ (step e g).1.answer_selection_list = none
        ∧ (step e g).1.correct_answer = none) := by
  cases e with
  | join ps => exact add_players_answers ps g
  | channelMsg a c m =>
      simp only [step, handle_channel_message]
      split
      · exact start_round_answers g
      · split
        · exact add_players_answers m g
        · repeat' split
          all_goals exact Or.inl rfl
  | playerMsg a c σ =>
      simp only [step, handle_player_message]
      split
      · exact Or.inl rfl
      · split
        · split
          · exact Or.inl rfl
          · split
            · exact Or.inl (select_answer_answers σ _ g)
            · exact Or.inl rfl
        · split
          · exact Or.inl rfl
          next hguard =>
            exfalso
            apply hguard
            rcases h with h | h <;> simp [h]
  | reaction mem emoji mid =>
      exact Or.inl (handle_reaction_answers mem emoji mid g)

theorem start_round_no_keyError (g : Game) :
    (start_round g).2 ≠ some PyErr.keyError := by
  rw [start_round]
  split
  · simp
  · dsimp only
    split <;> simp

theorem add_players_no_keyError (ps : List Player) (g : Game) :
    (add_players ps g).2 ≠ some PyErr.keyError := by
  simp only [add_players]
  split
  · exact start_round_no_keyError _
  · simp

/-- When the chosen answerer is a key of the answers map, `handle_reaction`
cannot raise `KeyError` (its only `KeyError` site is the completion
reveal). -/
theorem handle_reaction_no_keyError (mem : Option Player) (emoji : String)
    (mid : MsgId) (g : Game)
    (hsub : ∀ p, g.correct_answer = some p →
      dictContains p g.answers = true) :
    (handle_reaction mem emoji mid g).2 ≠ some PyErr.keyError := by
  simp only [handle_reaction]
  split
  · simp
  next ca hca =>
    obtain ⟨v, hv⟩ := dictLookup_isSome_of_contains (hsub ca hca)
    simp only [hv]
    repeat' split
    all_goals simp

theorem step_no_keyError (g : Game) (e : Event)
    (hsub : ∀ p, g.correct_answer = some p →
      dictContains p g.answers = true) :
    (step e g).2 ≠ some PyErr.keyError := by
  cases e with
  | join ps => exact add_players_no_keyError ps g
  | channelMsg a c m =>
      simp only [step, handle_channel_message]
      split
      · exact start_round_no_keyError g
      · split
        · exact add_players_no_keyError m g
        · repeat' split
          all_goals simp
  | playerMsg a c σ => simp [step]
  | reaction mem emoji mid =>
      exact handle_reaction_no_keyError mem emoji mid g hsub

/-- C10: in every reachable state, a chosen answerer is always a key of the
answers map; while a selection pool is open or a chosen answerer is set no
event mutates the answers map except the full reset of `start_round`
(which clears the pool and the chosen answerer together); consequently no
event — in particular the round-completion reveal looking up the chosen
answerer's text — can raise `KeyError`. -/
theorem c10 (g : Game) (hg : Reachable g) :
    (∀ p, g.correct_answer = some p → dictContains p g.answers = true)
    ∧ (∀ e, (pyTruthyList g.answer_selection_list = true
          ∨ g.correct_answer.isSome = true) →
        (step e g).1.answers = g.answers
        ∨ ((step e g).1.answers = []
            ∧ (step e g).1.answer_selection_list = none
            ∧ (step e g).1.correct_answer = none))
    ∧ (∀ e, (step e g).2 ≠ some PyErr.keyError) := by
  have hInv := reachable_inv hg
  exact ⟨hInv.caSub, fun e h => answers_frozen g e h,
    fun e => step_no_keyError g e hInv.caSub⟩

theorem c10_witness :
    dictContains 1 scenarioVoting.answers = true
    ∧ ((step (Event.playerMsg 1 "a late answer" []) scenarioVoting).1.answers
          = scenarioVoting.answers
        ∨ ((step (Event.playerMsg 1 "a late answer" []) scenarioVoting).1.answers
              = []
            ∧ (step (Event.playerMsg 1 "a late answer" [])
                scenarioVoting).1.answer_selection_list = none
            ∧ (step (Event.playerMsg 1 "a late answer" [])
                scenarioVoting).1.correct_answer = none))
    ∧ (step (Event.reaction (some 2) "2️⃣" 1) scenarioVoting).2
        ≠ some PyErr.keyError := by
  obtain ⟨h1, h2, h3⟩ := c10 scenarioVoting scenarioVoting_reachable
  exact ⟨h1 1 rfl, h2 _ (Or.inr rfl), h3 _⟩

end SayAnything
